import Mathlib

/-
Verification development for the rfgen waveform-synthesis core.

The definitions below are a shallow embedding of the Python source:
bytes are natural numbers below 256, bit sequences are lists of natural
numbers (0 or 1), NRZI levels are integers, IQ samples are rational or
real pairs.  Each definition names the source function it embeds
(module rfgen.core.wave_engine, rfgen.core.resample, rfgen.core.recording,
rfgen.standards.dsc_common, rfgen.standards.psk406).
-/

/-! ## AIS CRC-16/X25 (rfgen.core.wave_engine._crc16_x25_ais) -/

/-- One shift step of the reflected CRC loop body:
if crc and 1: crc = (crc >> 1) xor 0x8408 else crc >>= 1. -/
def crcStepAis (c : Nat) : Nat :=
  if c % 2 = 1 then (c / 2) ^^^ 0x8408 else c / 2

/-- Per-byte update of _crc16_x25_ais: crc ^= byte, then 8 shift steps. -/
def crcByteAis (c b : Nat) : Nat :=
  crcStepAis^[8] (c ^^^ b)

/-- Embedding of _crc16_x25_ais: init 0xFFFF, per-byte loop, final xor 0xFFFF
and mask to 16 bits. -/
def crc16_x25_ais (data : List Nat) : Nat :=
  ((data.foldl crcByteAis 0xFFFF) ^^^ 0xFFFF) &&& 0xFFFF

/-- Modelled from the spec: the CRC-16/X25 bit-serial reference.  The byte is
consumed one bit at a time, least significant bit first; each bit is xored
into the register before the reflected shift step.  Fueled by the number of
bits still to process. -/
def crcBitsSpec : Nat → Nat → Nat → Nat
  | c, _, 0 => c
  | c, b, n + 1 => crcBitsSpec (crcStepAis (c ^^^ (b % 2))) (b / 2) n

/-- Modelled from the spec: bit-serial CRC-16/X25 with init 0xFFFF and final
xor 0xFFFF, processing the 8 bits of each byte LSB-first. -/
def crc16_x25_spec (data : List Nat) : Nat :=
  ((data.foldl (fun c b => crcBitsSpec c b 8) 0xFFFF) ^^^ 0xFFFF) &&& 0xFFFF

/-! ## AIS bit manipulation (rfgen.core.wave_engine) -/

/-- Embedding of _bytes_to_bits_lsb_first_ais: each byte contributes its 8
bits least-significant-bit first. -/
def bytes_to_bits_lsb_first_ais (data : List Nat) : List Nat :=
  data.flatMap (fun byte => (List.range 8).map (fun i => (byte >>> i) &&& 1))

/-- Recursive core of _bit_stuff_ais; the second argument is the running
count of consecutive ones (ones_count in the source). -/
def bitStuffAisAux : List Nat → Nat → List Nat
  | [], _ => []
  | b :: rest, ones =>
    if b = 1 then
      if ones + 1 = 5 then 1 :: 0 :: bitStuffAisAux rest 0
      else 1 :: bitStuffAisAux rest (ones + 1)
    else b :: bitStuffAisAux rest 0

/-- Embedding of _bit_stuff_ais: insert a 0 after every five consecutive 1s. -/
def bit_stuff_ais (bits : List Nat) : List Nat :=
  bitStuffAisAux bits 0

/-- Number of (counter-resetting) runs of five consecutive 1s scanned left to
right: every time the running count of consecutive ones reaches five the
counter restarts.  This is the quantity the spec calls the number of 1-runs
of length 5. -/
def countRuns5Aux : List Nat → Nat → Nat
  | [], _ => 0
  | b :: rest, ones =>
    if b = 1 then
      if ones + 1 = 5 then 1 + countRuns5Aux rest 0
      else countRuns5Aux rest (ones + 1)
    else countRuns5Aux rest 0

/-- Top-level run-of-five counter, starting with an empty run. -/
def countRuns5 (bits : List Nat) : Nat :=
  countRuns5Aux bits 0

/-- Modelled from the spec: HDLC de-stuffing removes each 0 that immediately
follows exactly five consecutive 1s.  The second argument tracks the length
of the run of 1s immediately before the current position. -/
def deStuffAisAux : List Nat → Nat → List Nat
  | [], _ => []
  | b :: rest, ones =>
    if b = 1 then 1 :: deStuffAisAux rest (ones + 1)
    else if b = 0 ∧ ones = 5 then deStuffAisAux rest 0
    else b :: deStuffAisAux rest 0

/-- Top-level de-stuffing. -/
def de_stuff_ais (bits : List Nat) : List Nat :=
  deStuffAisAux bits 0

/-! ## AIS frame assembly (rfgen.core.wave_engine.build_ais, steps 1-4) -/

/-- The 24-bit alternating preamble built as [0,1] * 12 in the source. -/
def aisPreamble : List Nat :=
  (List.replicate 12 [0, 1]).flatten

/-- The HDLC flag 0x7E transmitted LSB-first: 01111110. -/
def aisFlag : List Nat :=
  [0, 1, 1, 1, 1, 1, 1, 0]

/-- The 24 zero guard-time bits appended after the stop flag. -/
def aisGuard : List Nat :=
  List.replicate 24 0

/-- The two FCS bytes appended by build_ais: fcs.to_bytes(2, little). -/
def aisFcsBytes (payload : List Nat) : List Nat :=
  [crc16_x25_ais payload % 256, (crc16_x25_ais payload / 256) % 256]

/-- Bits of payload plus FCS, LSB-first per byte (build_ais step 2). -/
def aisPayloadFcsBits (payload : List Nat) : List Nat :=
  bytes_to_bits_lsb_first_ais (payload ++ aisFcsBytes payload)

/-- Embedding of build_ais steps 1-4: the transmitted frame bit sequence,
before NRZI coding and GMSK modulation. -/
def build_ais_frame_bits (payload : List Nat) : List Nat :=
  aisPreamble ++ aisFlag ++ bit_stuff_ais (aisPayloadFcsBits payload) ++
    aisFlag ++ aisGuard

/-! ## Helper lemmas on stuffing -/

/-- The stuffed stream is longer than the input by exactly the number of
counter-resetting runs of five consecutive ones. -/
theorem bitStuffAisAux_length (bits : List Nat) : ∀ ones,
    (bitStuffAisAux bits ones).length = bits.length + countRuns5Aux bits ones := by
  induction bits with
  | nil => intro ones; rfl
  | cons b rest ih =>
    intro ones
    by_cases hb : b = 1
    · by_cases h5 : ones + 1 = 5
      · simp [bitStuffAisAux, countRuns5Aux, hb, h5, ih]
        omega
      · simp [bitStuffAisAux, countRuns5Aux, hb, h5, ih]
        omega
    · simp [bitStuffAisAux, countRuns5Aux, hb, ih]
      omega

/-! ## CRC equivalence lemmas -/

/-- Xoring a whole value into the register and shifting once is the same as
xoring only its low bit and carrying the remaining bits along. -/
theorem crcStepAis_xor_split (c b : Nat) :
    crcStepAis (c ^^^ b) = crcStepAis (c ^^^ b % 2) ^^^ b / 2 := by
  have hmod : (c ^^^ b) % 2 = (c ^^^ b % 2) % 2 := by
    have e1 := Nat.xor_mod_two_eq_one (a := c) (b := b)
    have e2 := Nat.xor_mod_two_eq_one (a := c) (b := b % 2)
    omega
  have hdiv : (c ^^^ b) / 2 = (c ^^^ b % 2) / 2 ^^^ b / 2 := by
    rw [Nat.xor_div_two, Nat.xor_div_two]
    have hz : b % 2 / 2 = 0 := by omega
    rw [hz, Nat.xor_zero]
  unfold crcStepAis
  rw [hmod, hdiv]
  by_cases hp : (c ^^^ b % 2) % 2 = 1
  · rw [if_pos hp, if_pos hp, Nat.xor_assoc, Nat.xor_assoc,
      Nat.xor_comm (b / 2) 0x8408]
  · rw [if_neg hp, if_neg hp]

/-- Iterating the shift step n times over a register xored with a value below
two to the n equals the bit-serial reference with fuel n. -/
theorem crcStepAis_iterate (n : Nat) : ∀ c b, b < 2 ^ n →
    crcStepAis^[n] (c ^^^ b) = crcBitsSpec c b n := by
  induction n with
  | zero =>
    intro c b hb
    have hb0 : b = 0 := by omega
    simp [hb0, crcBitsSpec]
  | succ n ih =>
    intro c b hb
    have hhalf : b / 2 < 2 ^ n := by
      rw [pow_succ] at hb
      omega
    rw [Function.iterate_succ_apply, crcStepAis_xor_split]
    rw [ih (crcStepAis (c ^^^ b % 2)) (b / 2) hhalf]
    rfl

/-- The per-byte fold of the source CRC agrees with the bit-serial fold for
byte-valued input. -/
theorem crc16_fold_eq (data : List Nat) : ∀ c, (∀ b ∈ data, b < 256) →
    data.foldl crcByteAis c = data.foldl (fun c b => crcBitsSpec c b 8) c := by
  induction data with
  | nil => intro c _; rfl
  | cons b rest ih =>
    intro c hb
    have hb256 : b < 2 ^ 8 := by
      have := hb b (by simp)
      norm_num
      omega
    simp only [List.foldl_cons]
    rw [show crcByteAis c b = crcBitsSpec c b 8 from crcStepAis_iterate 8 c b hb256]
    exact ih _ (fun x hx => hb x (by simp [hx]))

/-- C2: for every byte string, _crc16_x25_ais computes the bit-serial
reflected CRC-16/X25 with polynomial 0x8408, initial value 0xFFFF and final
xor 0xFFFF, and build_ais appends the 16-bit value to the payload as two
little-endian bytes before the LSB-first bit conversion. -/
theorem crc16_x25_ais_correct (data : List Nat) (h : ∀ b ∈ data, b < 256) :
    crc16_x25_ais data = crc16_x25_spec data ∧
    (∀ payload : List Nat,
      aisPayloadFcsBits payload =
        bytes_to_bits_lsb_first_ais
          (payload ++ [crc16_x25_ais payload % 256,
            crc16_x25_ais payload / 256 % 256])) := by
  constructor
  · unfold crc16_x25_ais crc16_x25_spec
    rw [crc16_fold_eq data 0xFFFF h]
  · intro payload
    rfl

/-- Witness for C2 on the concrete byte string 0x12 0x34. -/
theorem crc16_x25_ais_correct_witness :
    crc16_x25_ais [0x12, 0x34] = crc16_x25_spec [0x12, 0x34] ∧
    (∀ payload : List Nat,
      aisPayloadFcsBits payload =
        bytes_to_bits_lsb_first_ais
          (payload ++ [crc16_x25_ais payload % 256,
            crc16_x25_ais payload / 256 % 256])) :=
  crc16_x25_ais_correct [0x12, 0x34] (by decide)

/-! ## AIS NRZI line coding (rfgen.core.wave_engine._nrzi_encode_ais) -/

/-- Recursive core of _nrzi_encode_ais; the second argument is the current
level.  A 0 bit toggles the level, a 1 bit (or anything else) holds it, and
the post-transition level is emitted. -/
def nrziEncodeAisAux : List Nat → Int → List Int
  | [], _ => []
  | b :: rest, level =>
    if b = 0 then (-level) :: nrziEncodeAisAux rest (-level)
    else level :: nrziEncodeAisAux rest level

/-- Embedding of _nrzi_encode_ais: the source initializes level = 1. -/
def nrzi_encode_ais (bits : List Nat) : List Int :=
  nrziEncodeAisAux bits 1

/-- Modelled from the spec: NRZI decoding recovers bit 0 where the level
changes and bit 1 where it holds, starting from the defined initial level. -/
def nrziDecodeAisAux : List Int → Int → List Nat
  | [], _ => []
  | l :: rest, prev => (if l = prev then 1 else 0) :: nrziDecodeAisAux rest l

/-- Top-level NRZI decoding from the encoder's initial level +1. -/
def nrzi_decode_ais (levels : List Int) : List Nat :=
  nrziDecodeAisAux levels 1

/-! ## Round-trip helper lemmas -/

/-- De-stuffing undoes stuffing from any counter value below five. -/
theorem deStuff_bitStuff_aux (bits : List Nat) : ∀ ones, ones < 5 →
    deStuffAisAux (bitStuffAisAux bits ones) ones = bits := by
  induction bits with
  | nil => intro ones _; rfl
  | cons b rest ih =>
    intro ones hones
    by_cases hb : b = 1
    · by_cases h5 : ones + 1 = 5
      · simp [bitStuffAisAux, hb, h5, deStuffAisAux, ih 0 (by omega)]
      · simp [bitStuffAisAux, hb, h5, deStuffAisAux, ih (ones + 1) (by omega)]
    · simp [bitStuffAisAux, hb, deStuffAisAux, ih 0 (by omega)]
      intro hb0
      omega

/-- NRZI decoding undoes NRZI encoding for binary bits, from any nonzero
level. -/
theorem nrziDecode_nrziEncode_aux (bits : List Nat) : ∀ (level : Int),
    level ≠ 0 → (∀ b ∈ bits, b = 0 ∨ b = 1) →
    nrziDecodeAisAux (nrziEncodeAisAux bits level) level = bits := by
  induction bits with
  | nil => intro level _ _; rfl
  | cons b rest ih =>
    intro level hlevel hbin
    have hrest : ∀ x ∈ rest, x = 0 ∨ x = 1 := fun x hx => hbin x (by simp [hx])
    rcases hbin b (by simp) with hb | hb
    · have hne : -level ≠ level := by
        intro hcontra
        apply hlevel
        omega
      simp [nrziEncodeAisAux, hb, nrziDecodeAisAux, hne,
        ih (-level) (by omega) hrest]
    · simp [nrziEncodeAisAux, hb, nrziDecodeAisAux, ih level hlevel hrest]

/-- Every emitted NRZI level is plus or minus the starting level. -/
theorem nrziEncodeAisAux_mem (bits : List Nat) : ∀ (level l : Int),
    l ∈ nrziEncodeAisAux bits level → l = level ∨ l = -level := by
  induction bits with
  | nil => intro level l h; simp [nrziEncodeAisAux] at h
  | cons b rest ih =>
    intro level l h
    by_cases hb : b = 0
    · simp [nrziEncodeAisAux, hb] at h
      rcases h with h | h
      · right; omega
      · rcases ih (-level) l h with h1 | h1
        · right; omega
        · left; omega
    · simp [nrziEncodeAisAux, hb] at h
      rcases h with h | h
      · left; omega
      · exact ih level l h

/-- The encoded level at each index is the starting level times minus one to
the number of zero bits seen so far (inclusive). -/
theorem nrziEncodeAisAux_getD (bits : List Nat) : ∀ (level : Int) (i : Nat),
    i < bits.length →
    (nrziEncodeAisAux bits level).getD i 0 =
      level * (-1) ^ ((bits.take (i + 1)).count 0) := by
  induction bits with
  | nil => intro level i h; simp at h
  | cons b rest ih =>
    intro level i h
    cases i with
    | zero =>
      by_cases hb : b = 0
      · simp [nrziEncodeAisAux, hb]
      · simp [nrziEncodeAisAux, hb, List.count_cons, Ne.symm hb]
    | succ i =>
      have hi : i < rest.length := by simpa using Nat.lt_of_succ_lt_succ h
      have hadd : 1 + i = i + 1 := by omega
      by_cases hb : b = 0
      · have ihh := ih (-level) i hi
        simp [nrziEncodeAisAux, hb, List.count_cons, hadd] at ihh ⊢
        rw [ihh]
        ring
      · have ihh := ih level i hi
        simp [nrziEncodeAisAux, hb, List.count_cons, Ne.symm hb, hadd] at ihh ⊢
        rw [ihh]

/-- C8: de-stuffing (removing each 0 that immediately follows exactly five
consecutive 1s) is a left inverse of _bit_stuff_ais, and NRZI decoding
(bit 0 where the level changes, bit 1 where it holds, from the initial
level) is a left inverse of _nrzi_encode_ais on binary bit sequences. -/
theorem ais_stuff_nrzi_roundtrip (bits : List Nat) :
    de_stuff_ais (bit_stuff_ais bits) = bits ∧
    ((∀ b ∈ bits, b = 0 ∨ b = 1) →
      nrzi_decode_ais (nrzi_encode_ais bits) = bits) := by
  constructor
  · exact deStuff_bitStuff_aux bits 0 (by omega)
  · intro hbin
    exact nrziDecode_nrziEncode_aux bits 1 (by omega) hbin

/-- Witness for C8 on the concrete bit sequence 1,1,1,1,1,1,0. -/
theorem ais_stuff_nrzi_roundtrip_witness :
    de_stuff_ais (bit_stuff_ais [1, 1, 1, 1, 1, 1, 0]) = [1, 1, 1, 1, 1, 1, 0] ∧
    nrzi_decode_ais (nrzi_encode_ais [1, 1, 1, 1, 1, 1, 0]) = [1, 1, 1, 1, 1, 1, 0] :=
  ⟨(ais_stuff_nrzi_roundtrip [1, 1, 1, 1, 1, 1, 0]).1,
    (ais_stuff_nrzi_roundtrip [1, 1, 1, 1, 1, 1, 0]).2 (by decide)⟩

/-- C9: the AIS NRZI encoder starts from level +1: the output at position i
equals (-1) raised to the number of 0 bits among positions 0..i, the first
output level is -1 exactly when the first bit is 0 and +1 when it is 1, and
every output level is +1 or -1. -/
theorem nrzi_encode_ais_initial_level (bits : List Nat) (i : Nat)
    (h : i < bits.length) :
    (nrzi_encode_ais bits).getD i 0 =
      (1 : Int) * (-1) ^ ((bits.take (i + 1)).count 0) ∧
    (∀ l ∈ nrzi_encode_ais bits, l = 1 ∨ l = -1) ∧
    (bits.getD 0 1 = 0 → (nrzi_encode_ais bits).getD 0 0 = -1) ∧
    (bits.getD 0 0 = 1 → (nrzi_encode_ais bits).getD 0 0 = 1) := by
  refine ⟨nrziEncodeAisAux_getD bits 1 i h, ?_, ?_, ?_⟩
  · intro l hl
    simpa using nrziEncodeAisAux_mem bits 1 l hl
  · intro h0
    cases bits with
    | nil => simp at h0
    | cons b rest =>
      have hb : b = 0 := by simpa using h0
      simp [nrzi_encode_ais, nrziEncodeAisAux, hb]
  · intro h1
    cases bits with
    | nil => simp at h1
    | cons b rest =>
      have hb : b = 1 := by simpa using h1
      simp [nrzi_encode_ais, nrziEncodeAisAux, hb]

/-- Witness for C9 at the concrete bit sequence 0,1,0 and index 1. -/
theorem nrzi_encode_ais_initial_level_witness :
    (nrzi_encode_ais [0, 1, 0]).getD 1 0 =
      (1 : Int) * (-1) ^ (([0, 1, 0].take 2).count 0) ∧
    (∀ l ∈ nrzi_encode_ais [0, 1, 0], l = 1 ∨ l = -1) ∧
    ([0, 1, 0].getD 0 1 = 0 → (nrzi_encode_ais [0, 1, 0]).getD 0 0 = -1) ∧
    ([0, 1, 0].getD 0 0 = 1 → (nrzi_encode_ais [0, 1, 0]).getD 0 0 = 1) :=
  nrzi_encode_ais_initial_level [0, 1, 0] 1 (by decide)

/-- C1: build_ais assembles the transmitted frame as the 24-bit alternating
preamble, the start flag 01111110, the bit-stuffed payload+CRC bits
(LSB-first per byte), the stop flag 01111110 and 24 zero guard bits, in that
order; the frame length is 24 + 16 + stuffed-length + 24, and the stuffed
length exceeds the unstuffed payload+CRC length by exactly the number of
runs of five consecutive 1s.  Stuffing touches only the payload+CRC field. -/
theorem ais_frame_assembly (payload : List Nat) :
    build_ais_frame_bits payload =
      [0, 1, 0, 1, 0, 1, 0, 1, 0, 1, 0, 1, 0, 1, 0, 1, 0, 1, 0, 1, 0, 1, 0, 1]
        ++ [0, 1, 1, 1, 1, 1, 1, 0]
        ++ bit_stuff_ais (aisPayloadFcsBits payload)
        ++ [0, 1, 1, 1, 1, 1, 1, 0]
        ++ List.replicate 24 0 ∧
    (build_ais_frame_bits payload).length =
      24 + 16 + (bit_stuff_ais (aisPayloadFcsBits payload)).length + 24 ∧
    (bit_stuff_ais (aisPayloadFcsBits payload)).length =
      (aisPayloadFcsBits payload).length + countRuns5 (aisPayloadFcsBits payload) := by
  refine ⟨rfl, ?_, ?_⟩
  · simp [build_ais_frame_bits, aisPreamble, aisFlag, aisGuard]
    omega
  · simpa [bit_stuff_ais, countRuns5] using
      bitStuffAisAux_length (aisPayloadFcsBits payload) 0

/-! ## DSC ten-bit character encoding (rfgen.standards.dsc_common) -/

/-- Embedding of _symbol_to_primary7: the 7 info bits of a symbol,
most-significant-bit first (bit 6 down to bit 0). -/
def symbol_to_primary7 (sym : Nat) : List Nat :=
  (List.range 7).map (fun i => (sym >>> (6 - i)) &&& 1)

/-- Embedding of _primary7_to_tenbit: append the 3-bit zero count
(most-significant-bit first) to the 7 info bits. -/
def primary7_to_tenbit (info7 : List Nat) : List Nat :=
  info7 ++ [((7 - info7.sum) >>> 2) &&& 1, ((7 - info7.sum) >>> 1) &&& 1,
    (7 - info7.sum) &&& 1]

/-- Embedding of the per-symbol ten-bit expansion used by
_symbols_to_tenbits. -/
def dsc_tenbit (sym : Nat) : List Nat :=
  primary7_to_tenbit (symbol_to_primary7 sym)

/-- C3: for every symbol 0..127 the ten-bit character is the 7 info bits
MSB-first followed by 3 check bits MSB-first whose integer value is 7 minus
the number of 1 info bits, so ones-count plus check value equals 7. -/
theorem dsc_tenbit_check : ∀ sym < 128,
    (dsc_tenbit sym).length = 10 ∧
    (dsc_tenbit sym).take 7 = symbol_to_primary7 sym ∧
    4 * (dsc_tenbit sym).getD 7 0 + 2 * (dsc_tenbit sym).getD 8 0 +
      (dsc_tenbit sym).getD 9 0 =
      7 - (symbol_to_primary7 sym).count 1 ∧
    (symbol_to_primary7 sym).count 1 +
      (4 * (dsc_tenbit sym).getD 7 0 + 2 * (dsc_tenbit sym).getD 8 0 +
        (dsc_tenbit sym).getD 9 0) = 7 := by
  decide

/-- Witness for C3 at the concrete symbol 90. -/
theorem dsc_tenbit_check_witness :
    (dsc_tenbit 90).length = 10 ∧
    (dsc_tenbit 90).take 7 = symbol_to_primary7 90 ∧
    4 * (dsc_tenbit 90).getD 7 0 + 2 * (dsc_tenbit 90).getD 8 0 +
      (dsc_tenbit 90).getD 9 0 =
      7 - (symbol_to_primary7 90).count 1 ∧
    (symbol_to_primary7 90).count 1 +
      (4 * (dsc_tenbit 90).getD 7 0 + 2 * (dsc_tenbit 90).getD 8 0 +
        (dsc_tenbit 90).getD 9 0) = 7 :=
  dsc_tenbit_check 90 (by decide)

/-! ## Linear resampling (rfgen.core.resample.resample) -/

/-- Round half to even, as the Python built-in round applied to the exact
rational value num/den with den positive, computed with integer floor
division. -/
def roundHalfEvenInt (num den : ℤ) : ℤ :=
  if 2 * (num - (Int.fdiv num den) * den) < den then Int.fdiv num den
  else if den < 2 * (num - (Int.fdiv num den) * den) then Int.fdiv num den + 1
  else if (Int.fdiv num den) % 2 = 0 then Int.fdiv num den
  else Int.fdiv num den + 1

/-- One value of numpy.interp over the sample grid 0, 1, ..., n-1: linear
interpolation between adjacent samples, clamped to the last sample. -/
def npInterp (ys : List ℚ) (x : ℚ) : ℚ :=
  if (⌊x⌋).toNat + 1 < ys.length then
    ys.getD (⌊x⌋).toNat 0 +
      (x - ((⌊x⌋).toNat : ℚ)) *
        (ys.getD ((⌊x⌋).toNat + 1) 0 - ys.getD (⌊x⌋).toNat 0)
  else ys.getD (ys.length - 1) 0

/-- Embedding of rfgen.core.resample.resample over exact rational IQ pairs:
rate validation, equal-rate short circuit, degenerate cases, linear
interpolation of I and Q on the linspace grid, and the final minimum-size
check.  The output sample count round(size / fs_in * fs_out) is computed as
round-half-even of the exact rational (size * fs_out) / fs_in. -/
def resample (iq : List (ℚ × ℚ)) (fsIn fsOut : ℤ) :
    Except String (List (ℚ × ℚ)) :=
  if fsIn ≤ 0 ∨ fsOut ≤ 0 then
    .error "Invalid sample rates"
  else if fsIn = fsOut then
    .ok iq
  else if iq.length = 0 then
    .ok []
  else if roundHalfEvenInt ((iq.length : ℤ) * fsOut) fsIn ≤ 0 then
    .ok []
  else if roundHalfEvenInt ((iq.length : ℤ) * fsOut) fsIn = 1 then
    .ok (iq.take 1)
  else if ((List.range (roundHalfEvenInt ((iq.length : ℤ) * fsOut) fsIn).toNat).map
      (fun (k : Nat) =>
        ((npInterp (iq.map Prod.fst)
            (((iq.length : ℚ) - 1) * (k : ℚ) /
              ((roundHalfEvenInt ((iq.length : ℤ) * fsOut) fsIn : ℚ) - 1))),
         (npInterp (iq.map Prod.snd)
            (((iq.length : ℚ) - 1) * (k : ℚ) /
              ((roundHalfEvenInt ((iq.length : ℤ) * fsOut) fsIn : ℚ) - 1)))))).length < 8 then
    .error "Resample resulted in too few samples"
  else
    .ok ((List.range (roundHalfEvenInt ((iq.length : ℤ) * fsOut) fsIn).toNat).map
      (fun (k : Nat) =>
        ((npInterp (iq.map Prod.fst)
            (((iq.length : ℚ) - 1) * (k : ℚ) /
              ((roundHalfEvenInt ((iq.length : ℤ) * fsOut) fsIn : ℚ) - 1))),
         (npInterp (iq.map Prod.snd)
            (((iq.length : ℚ) - 1) * (k : ℚ) /
              ((roundHalfEvenInt ((iq.length : ℤ) * fsOut) fsIn : ℚ) - 1))))))

/-- Length of a map over an index range. -/
theorem length_map_range {α : Type} (f : Nat → α) (n : Nat) :
    ((List.range n).map f).length = n := by
  rw [List.length_map, List.length_range]

/-- C5 counterexample: with equal positive sample rates a 3-sample buffer is
returned as a copy - fewer than 8 output samples, input nonempty, output
longer than 1 sample, yet no failure is raised, contradicting the claim as
stated. -/
theorem resample_small_copy_counterexample :
    resample [((1 : ℚ), (0 : ℚ)), (2, 0), (3, 0)] 100 100 =
      .ok [((1 : ℚ), (0 : ℚ)), (2, 0), (3, 0)] ∧
    ([((1 : ℚ), (0 : ℚ)), (2, 0), (3, 0)] : List (ℚ × ℚ)).length = 3 ∧
    (3 : Nat) < 8 ∧ (1 : Nat) < 3 :=
  ⟨rfl, rfl, by omega, by omega⟩

/-- C5 (amended): with positive rates, equal rates return a copy of the
input regardless of its length; a zero-length input or a computed output
length of at most one sample yields the explicitly defined degenerate
results; the interpolation path raises a hard failure when it would produce
fewer than 8 samples and otherwise returns exactly the computed number of
samples. -/
theorem resample_degenerate_cases (iq : List (ℚ × ℚ)) (fsIn fsOut : ℤ)
    (hin : 0 < fsIn) (hout : 0 < fsOut) :
    (fsIn = fsOut → resample iq fsIn fsOut = .ok iq) ∧
    (fsIn ≠ fsOut → iq = [] → resample iq fsIn fsOut = .ok []) ∧
    (fsIn ≠ fsOut → iq ≠ [] →
      (roundHalfEvenInt ((iq.length : ℤ) * fsOut) fsIn ≤ 0 →
        resample iq fsIn fsOut = .ok []) ∧
      (roundHalfEvenInt ((iq.length : ℤ) * fsOut) fsIn = 1 →
        resample iq fsIn fsOut = .ok (iq.take 1)) ∧
      (2 ≤ roundHalfEvenInt ((iq.length : ℤ) * fsOut) fsIn →
        roundHalfEvenInt ((iq.length : ℤ) * fsOut) fsIn < 8 →
        ∃ msg, resample iq fsIn fsOut = .error msg) ∧
      (8 ≤ roundHalfEvenInt ((iq.length : ℤ) * fsOut) fsIn →
        ∃ out, resample iq fsIn fsOut = .ok out ∧
          (out.length : ℤ) = roundHalfEvenInt ((iq.length : ℤ) * fsOut) fsIn)) := by
  have hns : ¬(fsIn ≤ 0 ∨ fsOut ≤ 0) := by omega
  refine ⟨?_, ?_, ?_⟩
  · intro he
    unfold resample
    rw [if_neg hns, if_pos he]
  · intro hne hemp
    unfold resample
    rw [if_neg hns, if_neg hne, if_pos (by simp [hemp])]
  · intro hne hnemp
    have hlen : ¬(iq.length = 0) := by
      simpa [List.length_eq_zero] using hnemp
    refine ⟨?_, ?_, ?_, ?_⟩
    · intro h0
      unfold resample
      rw [if_neg hns, if_neg hne, if_neg hlen, if_pos h0]
    · intro h1
      unfold resample
      rw [if_neg hns, if_neg hne, if_neg hlen, if_neg (by omega), if_pos h1]
    · intro h2 h8
      refine ⟨"Resample resulted in too few samples", ?_⟩
      unfold resample
      rw [if_neg hns, if_neg hne, if_neg hlen, if_neg (by omega),
        if_neg (by omega), if_pos (by rw [length_map_range]; omega)]
    · intro h8
      have hres : resample iq fsIn fsOut =
          .ok ((List.range (roundHalfEvenInt ((iq.length : ℤ) * fsOut) fsIn).toNat).map
            (fun (k : Nat) =>
              ((npInterp (iq.map Prod.fst)
                  (((iq.length : ℚ) - 1) * (k : ℚ) /
                    ((roundHalfEvenInt ((iq.length : ℤ) * fsOut) fsIn : ℚ) - 1))),
               (npInterp (iq.map Prod.snd)
                  (((iq.length : ℚ) - 1) * (k : ℚ) /
                    ((roundHalfEvenInt ((iq.length : ℤ) * fsOut) fsIn : ℚ) - 1)))))) := by
        unfold resample
        rw [if_neg hns, if_neg hne, if_neg hlen, if_neg (by omega),
          if_neg (by omega), if_neg (by rw [length_map_range]; omega)]
      refine ⟨_, hres, ?_⟩
      rw [length_map_range]
      omega

/-- Witness for C5 (amended): one input sample resampled from rate 2 to
rate 3 computes 2 output samples and raises the hard failure. -/
theorem resample_degenerate_cases_witness :
    ∃ msg, resample [((1 : ℚ), (0 : ℚ))] 2 3 = .error msg :=
  ((resample_degenerate_cases [((1 : ℚ), (0 : ℚ))] 2 3 (by decide)
      (by decide)).2.2 (by decide) (by simp)).2.2.1 (by decide) (by decide)

/-! ## PSK-406 configuration validation (rfgen.core.wave_engine.build_psk406) -/

/-- Embedding of bit_samples = int(round(fs / bit_rate_bps)) at the fixed
400 bps PSK-406 rate. -/
def bit_samples_406 (fs : Nat) : Nat :=
  (roundHalfEvenInt (fs : ℤ) 400).toNat

/-- Embedding of the validation prefix of build_psk406: bit_samples must be
at least 10, and front_samples must be strictly below half // 2 where
half = bit_samples // 2. -/
def psk406_validate (fs front : Nat) : Except String Unit :=
  if bit_samples_406 fs < 10 then
    .error "bit_samples too small; increase fs_tx"
  else if bit_samples_406 fs / 2 / 2 ≤ front then
    .error "front_samples must be smaller than a quarter bit"
  else .ok ()

/-- C6 counterexample: at fs = 1000000 the bit period is 2500 samples and
the half-bit is 1250 samples; front_samples = 400 is NOT less than one
quarter of the half-bit length (1250/4 = 312.5, i.e. 4*400 is at least
1250), yet the configuration is accepted. -/
theorem psk406_front_counterexample :
    psk406_validate 1000000 400 = .ok () ∧
    bit_samples_406 1000000 = 2500 ∧
    bit_samples_406 1000000 / 2 ≤ 4 * 400 :=
  ⟨rfl, rfl, by decide⟩

/-- C6 (amended): a configuration is accepted exactly when bit_samples is at
least 10 and the ramp length is strictly below one half of the half-bit
sample count, namely bit_samples // 4; every accepted configuration
therefore has front_samples < bit_samples // 4. -/
theorem psk406_front_validation (fs front : Nat) :
    (psk406_validate fs front = .ok () ↔
      10 ≤ bit_samples_406 fs ∧ front < bit_samples_406 fs / 2 / 2) ∧
    bit_samples_406 fs / 2 / 2 = bit_samples_406 fs / 4 := by
  constructor
  · constructor
    · intro h
      unfold psk406_validate at h
      split_ifs at h with h1 h2
      · omega
    · intro hok
      unfold psk406_validate
      rw [if_neg (by omega), if_neg (by omega)]
  · rw [Nat.div_div_eq_div_mul]

/-! ## Sample format codec (rfgen.core.recording.save_sc8) -/

/-- Peak magnitude of a complex buffer: np.max(np.abs(iq)), with 0 for the
empty buffer (the source guards the empty case separately). -/
noncomputable def peak_abs (iq : List ℂ) : ℝ :=
  (iq.map Complex.abs).foldr max 0

/-- The raw peak used by save_sc8: np.max(np.abs(iq)) if iq.size else 1.0. -/
noncomputable def sc8MxRaw (iq : List ℂ) : ℝ :=
  if iq.isEmpty then 1 else peak_abs iq

/-- The clamped denominator of save_sc8: if mx < 1e-12 it is forced to 1. -/
noncomputable def sc8Mx (iq : List ℂ) : ℝ :=
  if sc8MxRaw iq < 1 / 10 ^ 12 then 1 else sc8MxRaw iq

/-- Conversion of a float to int8 by numpy astype: truncation toward zero. -/
noncomputable def truncTowardZero (x : ℝ) : ℤ :=
  if 0 ≤ x then ⌊x⌋ else ⌈x⌉

/-- One quantized component of save_sc8:
np.clip(x * scale * 127.0, -128, 127).astype(np.int8). -/
noncomputable def sc8Quant (scale x : ℝ) : ℤ :=
  truncTowardZero (min 127 (max (-128) (x * scale * 127)))

/-- Embedding of save_sc8: scale = 0.8 / mx, then per-sample quantization of
the I and Q components. -/
noncomputable def save_sc8 (iq : List ℂ) : List (ℤ × ℤ) :=
  iq.map (fun z =>
    (sc8Quant (0.8 / sc8Mx iq) z.re, sc8Quant (0.8 / sc8Mx iq) z.im))

/-- Modelled from the spec: the quantizer the claim describes, rounding to
the nearest integer instead of truncating. -/
noncomputable def sc8_quant_spec (scale x : ℝ) : ℤ :=
  round (min 127 (max (-128) (x * scale * 127)))

/-- Truncation toward zero moves a value by less than one. -/
theorem truncTowardZero_error (x : ℝ) : |(truncTowardZero x : ℝ) - x| ≤ 1 := by
  unfold truncTowardZero
  by_cases hx : 0 ≤ x
  · rw [if_pos hx, abs_le]
    constructor
    · have := Int.sub_one_lt_floor x
      linarith
    · have := Int.floor_le x
      linarith
  · rw [if_neg hx, abs_le]
    constructor
    · have := Int.le_ceil x
      linarith
    · have := Int.ceil_lt_add_one x
      linarith

/-- Per-component quantization error of save_sc8: for a component bounded by
the peak, the stored value divided by 127 is within 1/127 of the scaled
input. -/
theorem sc8Quant_error (mx x : ℝ) (hmx : 0 < mx) (hx : |x| ≤ mx) :
    |((sc8Quant (0.8 / mx) x : ℝ)) / 127 - x * (0.8 / mx)| ≤ 1 / 127 := by
  have hmx0 : mx ≠ 0 := ne_of_gt hmx
  have hv : |x * (0.8 / mx) * 127| ≤ 101.6 := by
    have h1 : |x * (0.8 / mx) * 127| = |x| * (0.8 / mx) * 127 := by
      rw [abs_mul, abs_mul]
      rw [abs_of_pos (by positivity : (0 : ℝ) < 0.8 / mx)]
      norm_num
    rw [h1]
    have h2 : |x| * (0.8 / mx) * 127 ≤ mx * (0.8 / mx) * 127 := by
      have hscale : (0 : ℝ) ≤ 0.8 / mx := by positivity
      nlinarith
    have h3 : mx * (0.8 / mx) * 127 = 101.6 := by
      field_simp
      ring
    linarith
  have hvle : x * (0.8 / mx) * 127 ≤ 127 := by
    have := abs_le.mp hv
    linarith
  have hvge : (-128 : ℝ) ≤ x * (0.8 / mx) * 127 := by
    have := abs_le.mp hv
    linarith
  have hclip : min 127 (max (-128) (x * (0.8 / mx) * 127)) =
      x * (0.8 / mx) * 127 := by
    rw [max_eq_right hvge, min_eq_right hvle]
  have herr := truncTowardZero_error (x * (0.8 / mx) * 127)
  unfold sc8Quant
  rw [hclip]
  have hdiv : (truncTowardZero (x * (0.8 / mx) * 127) : ℝ) / 127 -
      x * (0.8 / mx) =
      ((truncTowardZero (x * (0.8 / mx) * 127) : ℝ) -
        x * (0.8 / mx) * 127) / 127 := by
    ring
  rw [hdiv, abs_div]
  rw [abs_of_pos (by norm_num : (0 : ℝ) < 127)]
  exact (div_le_div_iff_of_pos_right (by norm_num)).mpr herr

/-- Every element magnitude is bounded by the buffer peak. -/
theorem le_peak_abs (iq : List ℂ) (z : ℂ) (hz : z ∈ iq) :
    Complex.abs z ≤ peak_abs iq := by
  induction iq with
  | nil => simp at hz
  | cons w rest ih =>
    have hcons : peak_abs (w :: rest) = max (Complex.abs w) (peak_abs rest) := rfl
    rcases List.mem_cons.mp hz with h | h
    · subst h
      rw [hcons]
      exact le_max_left _ _
    · rw [hcons]
      exact le_trans (ih h) (le_max_right _ _)

/-- For a nonempty buffer the clamped denominator dominates every element
magnitude and is positive. -/
theorem abs_le_sc8Mx (iq : List ℂ) (z : ℂ) (hz : z ∈ iq) :
    Complex.abs z ≤ sc8Mx iq ∧ 0 < sc8Mx iq := by
  have hpeak := le_peak_abs iq z hz
  have hne : ¬iq.isEmpty := by
    cases iq with
    | nil => simp at hz
    | cons w rest => simp
  have hraw : sc8MxRaw iq = peak_abs iq := by
    unfold sc8MxRaw
    rw [if_neg hne]
  unfold sc8Mx
  by_cases hsmall : sc8MxRaw iq < 1 / 10 ^ 12
  · rw [if_pos hsmall]
    rw [hraw] at hsmall
    refine ⟨?_, by norm_num⟩
    have : peak_abs iq < 1 := by
      calc peak_abs iq < 1 / 10 ^ 12 := hsmall
        _ ≤ 1 := by norm_num
    linarith
  · rw [if_neg hsmall]
    rw [hraw] at hsmall ⊢
    have heps : (0 : ℝ) < 1 / 10 ^ 12 := by norm_num
    exact ⟨hpeak, by linarith [not_lt.mp hsmall]⟩

/-- C7 (amended): the int8 wire format finds the buffer peak, scales it to
80 percent of full scale, then truncates toward zero (numpy astype) and
clamps each I and Q component; for every sample the stored value divided by
127 is within 1/127 of the scaled (normalized) input component. -/
theorem save_sc8_quantization_error (iq : List ℂ) (z : ℂ) (hz : z ∈ iq) :
    |((sc8Quant (0.8 / sc8Mx iq) z.re : ℝ)) / 127 -
      z.re * (0.8 / sc8Mx iq)| ≤ 1 / 127 ∧
    |((sc8Quant (0.8 / sc8Mx iq) z.im : ℝ)) / 127 -
      z.im * (0.8 / sc8Mx iq)| ≤ 1 / 127 ∧
    save_sc8 iq = iq.map (fun w =>
      (sc8Quant (0.8 / sc8Mx iq) w.re, sc8Quant (0.8 / sc8Mx iq) w.im)) := by
  obtain ⟨hle, hpos⟩ := abs_le_sc8Mx iq z hz
  have hre : |z.re| ≤ sc8Mx iq := le_trans (Complex.abs_re_le_abs z) hle
  have him : |z.im| ≤ sc8Mx iq := le_trans (Complex.abs_im_le_abs z) hle
  exact ⟨sc8Quant_error _ _ hpos hre, sc8Quant_error _ _ hpos him, rfl⟩

/-- Witness for C7 (amended) on the one-sample buffer containing 1. -/
theorem save_sc8_quantization_error_witness :
    |((sc8Quant (0.8 / sc8Mx [(1 : ℂ)]) (1 : ℂ).re : ℝ)) / 127 -
      (1 : ℂ).re * (0.8 / sc8Mx [(1 : ℂ)])| ≤ 1 / 127 ∧
    |((sc8Quant (0.8 / sc8Mx [(1 : ℂ)]) (1 : ℂ).im : ℝ)) / 127 -
      (1 : ℂ).im * (0.8 / sc8Mx [(1 : ℂ)])| ≤ 1 / 127 ∧
    save_sc8 [(1 : ℂ)] = [(1 : ℂ)].map (fun w =>
      (sc8Quant (0.8 / sc8Mx [(1 : ℂ)]) w.re,
        sc8Quant (0.8 / sc8Mx [(1 : ℂ)]) w.im)) :=
  save_sc8_quantization_error [(1 : ℂ)] 1 (by simp)

/-- Concrete quantizer evaluation at full-scale input: 0.8 * 127 = 101.6
truncates to 101. -/
theorem sc8Quant_at_one : sc8Quant (0.8 / 1) (1 : ℝ) = 101 := by
  have h1016 : (1 : ℝ) * (0.8 / 1) * 127 = 101.6 := by norm_num
  have hmax : max (-128 : ℝ) 101.6 = 101.6 := by norm_num
  have hmin : min (127 : ℝ) 101.6 = 101.6 := by norm_num
  have hfloor : ⌊(101.6 : ℝ)⌋ = 101 := by
    apply Int.floor_eq_iff.mpr
    norm_num
  unfold sc8Quant truncTowardZero
  rw [h1016, hmax, hmin, if_pos (by norm_num)]
  exact hfloor

/-- Concrete quantizer evaluation at zero input. -/
theorem sc8Quant_at_zero : sc8Quant (0.8 / 1) (0 : ℝ) = 0 := by
  have h0 : (0 : ℝ) * (0.8 / 1) * 127 = 0 := by norm_num
  have hmax : max (-128 : ℝ) 0 = 0 := by norm_num
  have hmin : min (127 : ℝ) 0 = 0 := by norm_num
  unfold sc8Quant truncTowardZero
  rw [h0, hmax, hmin, if_pos le_rfl]
  exact Int.floor_zero

/-- The clamped denominator of the one-sample buffer containing 1 is 1. -/
theorem sc8Mx_one_buffer : sc8Mx [(1 : ℂ)] = 1 := by
  have hpeak : peak_abs [(1 : ℂ)] = 1 := by
    unfold peak_abs
    simp
  have hraw : sc8MxRaw [(1 : ℂ)] = 1 := by
    unfold sc8MxRaw
    rw [if_neg (by simp), hpeak]
  unfold sc8Mx
  rw [hraw, if_neg (by norm_num)]

/-- C7 counterexample: on the buffer with the single sample 1 the code
stores 101 (truncation of 101.6), while the rounding quantizer described by
the claim would store 102, so the claimed mechanism does not match the
code. -/
theorem save_sc8_rounding_counterexample :
    save_sc8 [(1 : ℂ)] = [((101 : ℤ), (0 : ℤ))] ∧
    sc8_quant_spec (0.8 / sc8Mx [(1 : ℂ)]) (1 : ℂ).re = 102 ∧
    (101 : ℤ) ≠ 102 := by
  refine ⟨?_, ?_, by decide⟩
  · unfold save_sc8
    rw [sc8Mx_one_buffer]
    simp only [List.map_cons, List.map_nil, Complex.one_re, Complex.one_im]
    rw [sc8Quant_at_one, sc8Quant_at_zero]
  · unfold sc8_quant_spec
    rw [sc8Mx_one_buffer, Complex.one_re]
    have h1016 : (1 : ℝ) * (0.8 / 1) * 127 = 101.6 := by norm_num
    have hmax : max (-128 : ℝ) 101.6 = 101.6 := by norm_num
    have hmin : min (127 : ℝ) 101.6 = 101.6 := by norm_num
    rw [h1016, hmax, hmin, round_eq]
    have harg : (101.6 : ℝ) + 1 / 2 = 102.1 := by norm_num
    rw [harg]
    apply Int.floor_eq_iff.mpr
    norm_num

/-- C10: save_sc8 is total on degenerate inputs: the scale denominator is
always positive, it is clamped to 1 whenever the peak is below 1e-12
(including the empty buffer), and the all-zero buffer is written as all
zero int8 samples. -/
theorem save_sc8_degenerate (iq : List ℂ) (n : Nat) :
    0 < sc8Mx iq ∧
    (peak_abs iq < 1 / 10 ^ 12 → sc8Mx iq = 1) ∧
    save_sc8 ([] : List ℂ) = [] ∧
    save_sc8 (List.replicate n 0) = List.replicate n ((0 : ℤ), (0 : ℤ)) := by
  have hpeak0 : ∀ m : Nat, peak_abs (List.replicate m (0 : ℂ)) = 0 := by
    intro m
    induction m with
    | zero => rfl
    | succ m ih =>
      have hstep : peak_abs (List.replicate (m + 1) (0 : ℂ)) =
          max (Complex.abs 0) (peak_abs (List.replicate m (0 : ℂ))) := rfl
      rw [hstep, ih]
      simp
  refine ⟨?_, ?_, rfl, ?_⟩
  · unfold sc8Mx
    by_cases hsmall : sc8MxRaw iq < 1 / 10 ^ 12
    · rw [if_pos hsmall]
      norm_num
    · rw [if_neg hsmall]
      have : (0 : ℝ) < 1 / 10 ^ 12 := by norm_num
      linarith [not_lt.mp hsmall]
  · intro hp
    unfold sc8Mx sc8MxRaw
    by_cases he : iq.isEmpty
    · rw [if_pos he, if_neg (by norm_num)]
    · rw [if_neg he, if_pos hp]
  · have hmxrep : sc8Mx (List.replicate n (0 : ℂ)) = 1 := by
      have hraw : sc8MxRaw (List.replicate n (0 : ℂ)) < 1 / 10 ^ 12 ∨
          sc8MxRaw (List.replicate n (0 : ℂ)) = 1 := by
        cases n with
        | zero => right; rfl
        | succ m =>
          left
          unfold sc8MxRaw
          rw [if_neg (by simp), hpeak0]
          norm_num
      unfold sc8Mx
      rcases hraw with h | h
      · rw [if_pos h]
      · rw [h, if_neg (by norm_num)]
    unfold save_sc8
    rw [hmxrep]
    simp only [List.map_replicate, Complex.zero_re, Complex.zero_im]
    rw [sc8Quant_at_zero]

/-- Witness for C10 at the empty buffer and a two-sample all-zero buffer. -/
theorem save_sc8_degenerate_witness :
    0 < sc8Mx ([] : List ℂ) ∧ sc8Mx ([] : List ℂ) = 1 ∧
    save_sc8 ([] : List ℂ) = [] ∧
    save_sc8 (List.replicate 2 (0 : ℂ)) = List.replicate 2 ((0 : ℤ), (0 : ℤ)) :=
  ⟨(save_sc8_degenerate [] 2).1,
   (save_sc8_degenerate [] 2).2.1 (by norm_num [peak_abs]),
   (save_sc8_degenerate [] 2).2.2.1,
   (save_sc8_degenerate [] 2).2.2.2⟩

/-! ## Generic waveform generator (rfgen.core.wave_engine, basic path) -/

/-- Embedding of generate_base_signal for the tone pattern with n samples:
m[k] = sin(2 pi tone_hz * (k / fs)). -/
noncomputable def generate_base_signal_tone (fs : Nat) (n : Nat) (tone : ℝ) :
    List ℝ :=
  (List.range n).map (fun (k : Nat) =>
    Real.sin (2 * Real.pi * tone * ((k : ℝ) / (fs : ℝ))))

/-- Embedding of mod_am: envelope 1 + depth * m (the imaginary part is zero,
so the sample magnitude is the absolute envelope). -/
def mod_am (m : List ℝ) (depth : ℝ) : List ℝ :=
  m.map (fun v => 1 + depth * v)

/-- Embedding of the final generic-path scaling of build_iq:
iq = 0.8 * iq. -/
def build_iq_scale (iq : List ℝ) : List ℝ :=
  iq.map (fun v => 0.8 * v)

/-- Indexing a mapped index range with a default. -/
theorem getD_map_range {α : Type} (f : Nat → α) (n i : Nat) (d : α)
    (h : i < n) : (((List.range n).map f).getD i d) = f i := by
  rw [List.getD_eq_getElem?_getD, List.getElem?_map, List.getElem?_range h]
  rfl

/-- C4 code evaluation: for the basic profile with the tone pattern
(fs = 48000, tone_hz = 1000) under AM with the default depth 0.5, sample 12
of the generated buffer is 0.8 * (1 + 0.5 * sin(pi/2)) = 1.2, which exceeds
both the claimed 0.8 headroom target of the generic path and the absolute
1.0 bound. -/
theorem build_iq_am_exceeds_headroom :
    (build_iq_scale (mod_am (generate_base_signal_tone 48000 16 1000) 0.5)).getD 12 0
      = 1.2 ∧
    (1.2 : ℝ) > 0.8 ∧ (1.2 : ℝ) > 1 := by
  refine ⟨?_, by norm_num, by norm_num⟩
  have hsin : Real.sin (2 * Real.pi * 1000 * ((12 : ℝ) / (48000 : ℝ))) = 1 := by
    have harg : 2 * Real.pi * 1000 * ((12 : ℝ) / (48000 : ℝ)) = Real.pi / 2 := by
      ring
    rw [harg, Real.sin_pi_div_two]
  unfold build_iq_scale mod_am generate_base_signal_tone
  rw [List.map_map, List.map_map]
  rw [getD_map_range _ 16 12 0 (by omega)]
  simp only [Function.comp]
  push_cast
  rw [hsin]
  norm_num
